import Mathlib

/-!
Shallow embedding of the `image_dedup` deduplication engine
(`src/image_dedup/dedup.py`, `cache.py`, `scanner.py`, `cli.py`).

File-system effects are modelled by oracles carried in the input data:
each candidate file records what `path.stat()`, `compute_sha256`,
`compute_phash` and `compute_dhash` would produce for it (`none` models
the raised exception).  Perceptual digests are bit strings (`List Bool`)
compared by Hamming distance, exactly as `imagehash.ImageHash` values
are compared with `-`.  Python floats are modelled by `ℚ`: every value
appearing in the engine's float arithmetic (`(p + d) / 2`, comparisons
with an integer threshold, `0.001` mtime tolerance) is exactly
representable, so `ℚ` arithmetic coincides with the float arithmetic of
the source.
-/

namespace ImageDedup

/-- What the file system and hashers would answer for one candidate file
yielded by the scanner.  `stat = none` models an `OSError` from
`path.stat()`; `sha = none` models an exception from `compute_sha256`;
`ph`/`dh = none` model a decode failure in `compute_phash`/`compute_dhash`. -/
structure FsImage where
  path : String
  stat : Option Nat
  sha : Option String
  ph : Option (List Bool)
  dh : Option (List Bool)
deriving DecidableEq, Repr

/-- `dedup.ImageInfo`: path, size and the three optional digests. -/
structure ImageInfo where
  path : String
  size : Nat
  sha256 : Option String := none
  phash : Option (List Bool) := none
  dhash : Option (List Bool) := none
deriving DecidableEq, Repr

/-- `dedup.DuplicateGroup`. -/
structure DuplicateGroup where
  images : List ImageInfo := []
  match_type : String := "exact"
  similarity : Option Nat := none
deriving DecidableEq, Repr

/-- `DuplicateGroup.total_size`: total size of all images in the group. -/
def DuplicateGroup.total_size (g : DuplicateGroup) : Nat :=
  (g.images.map ImageInfo.size).sum

/-- `DuplicateGroup.potential_savings`: sort the sizes in descending
order and sum everything after the first (largest) one. -/
def DuplicateGroup.potential_savings (g : DuplicateGroup) : Nat :=
  if g.images.length ≤ 1 then 0
  else (((g.images.map ImageInfo.size).insertionSort (· ≥ ·)).tail).sum

/-- Size of the largest member of a group (`0` for an empty group). -/
def DuplicateGroup.maxSize (g : DuplicateGroup) : Nat :=
  (g.images.map ImageInfo.size).foldr max 0

/-- The paths of a group's members. -/
def groupPaths (g : DuplicateGroup) : List String :=
  g.images.map ImageInfo.path

/-- Two groups are path-disjoint when no member path of the first occurs
among the member paths of the second. -/
def PathDisjoint (g1 g2 : DuplicateGroup) : Prop :=
  ∀ p ∈ groupPaths g1, p ∉ groupPaths g2

/-- `dedup.DeduplicationResult`.  Error messages (`str(e)` in the
source) are modelled by fixed strings, since only the offending path is
specified. -/
structure DeduplicationResult where
  exact_duplicates : List DuplicateGroup := []
  similar_images : List DuplicateGroup := []
  total_images : Nat := 0
  total_size : Nat := 0
  errors : List (String × String) := []
deriving DecidableEq, Repr

/-- Hamming distance between two equal-length bit strings
(`imagehash.ImageHash.__sub__`: count of differing bits). -/
def hamming (a b : List Bool) : Nat :=
  ((a.zip b).filter fun p => p.1 ≠ p.2).length

/-- `phash_dist + dhash_dist` for two images (`0` is used for an absent
digest; every image reaching the similarity phase carries both digests). -/
def sumDist (a b : ImageInfo) : Nat :=
  hamming (a.phash.getD []) (b.phash.getD []) +
    hamming (a.dhash.getD []) (b.dhash.getD [])

/-- `avg_dist = (phash_dist + dhash_dist) / 2` — the combined distance,
the arithmetic mean of the two Hamming distances.  The source computes
it in float arithmetic, which is exact for these magnitudes, so the
mean is modelled as the exact rational.  The executable clustering code
below works with the integer sum `phash_dist + dhash_dist` instead
(`sum / 2 ≤ t ↔ sum ≤ 2 * t`, and `int(sum / 2) = sum / 2` in `ℕ`);
the lemmas `combinedDist_le_iff` and `minQ?_map_half` relate the two
views exactly. -/
def combinedDist (a b : ImageInfo) : ℚ :=
  (sumDist a b : ℚ) / 2

/-- Minimum of a list of rationals (`none` for the empty list); the
shape of the running `min_distance` accumulator. -/
def minQ? : List ℚ → Option ℚ
  | [] => none
  | x :: xs => some (min x ((minQ? xs).getD x))

/-- Minimum of a list of naturals (`none` for the empty list). -/
def minN? : List Nat → Option Nat
  | [] => none
  | x :: xs => some (min x ((minN? xs).getD x))

/-- Per-file outcome of Phase 2 of `find_duplicates` (the `try` block):
whether the file was appended to `sha256_groups` (and under which key),
whether it was appended to `phash_list`, and whether the block raised.
The control flow mirrors the source exactly: `compute_sha256` runs first
when `find_exact`, and an exception there skips the perceptual hashing;
a file whose exact digest succeeded stays in `sha256_groups` even when a
later perceptual digest fails. -/
structure FileHashOut where
  shaEntry : Option (String × ImageInfo)
  phEntry : Option ImageInfo
  errored : Bool
deriving DecidableEq, Repr

/-- Phase 2 body for one file of size `sz`. -/
def hashOne (find_exact find_similar : Bool) (f : FsImage) (sz : Nat) :
    FileHashOut :=
  if find_exact then
    match f.sha with
    | none => ⟨none, none, true⟩
    | some s =>
      if find_similar then
        match f.ph with
        | none => ⟨some (s, ⟨f.path, sz, some s, none, none⟩), none, true⟩
        | some p =>
          match f.dh with
          | none => ⟨some (s, ⟨f.path, sz, some s, some p, none⟩), none, true⟩
          | some d =>
            ⟨some (s, ⟨f.path, sz, some s, some p, some d⟩),
              some ⟨f.path, sz, some s, some p, some d⟩, false⟩
      else ⟨some (s, ⟨f.path, sz, some s, none, none⟩), none, false⟩
  else
    if find_similar then
      match f.ph with
      | none => ⟨none, none, true⟩
      | some p =>
        match f.dh with
        | none => ⟨none, none, true⟩
        | some d => ⟨none, some ⟨f.path, sz, none, some p, some d⟩, false⟩
    else ⟨none, none, false⟩

/-- Phase 1: files that could be stat'ed, paired with their size. -/
def survivors (files : List FsImage) : List (FsImage × Nat) :=
  files.filterMap fun f => f.stat.map fun sz => (f, sz)

/-- Phase 1 errors: one `(path, message)` per stat failure. -/
def statErrors (files : List FsImage) : List (String × String) :=
  (files.filter fun f => f.stat.isNone).map fun f => (f.path, "stat error")

/-- Phase 2 errors, in file order. -/
def hashErrors (fe fs : Bool) (files : List FsImage) : List (String × String) :=
  (survivors files).filterMap fun fz =>
    if (hashOne fe fs fz.1 fz.2).errored then some (fz.1.path, "hash error")
    else none

/-- The `(sha256, image)` pairs appended to `sha256_groups`, in file order. -/
def shaPairsOf (fe fs : Bool) (files : List FsImage) :
    List (String × ImageInfo) :=
  (survivors files).filterMap fun fz => (hashOne fe fs fz.1 fz.2).shaEntry

/-- The `phash_list` built during Phase 2, in file order. -/
def phashListOf (fe fs : Bool) (files : List FsImage) : List ImageInfo :=
  (survivors files).filterMap fun fz => (hashOne fe fs fz.1 fz.2).phEntry

/-- Insertion-order grouping of the `(sha256, image)` pairs, modelling
`defaultdict(list)` with per-key append and `.items()` iteration:
buckets appear in first-key-occurrence order and each bucket lists its
images in scan order. -/
def groupBySha : List (String × ImageInfo) → List (String × List ImageInfo)
  | [] => []
  | (s, i) :: rest =>
    let g := groupBySha rest
    (s, i :: ((g.find? fun kv => kv.1 == s).map Prod.snd).getD []) ::
      g.filter fun kv => kv.1 != s

/-- Phase 3: every sha bucket with at least two members becomes an exact
`DuplicateGroup`. -/
def exactGroupsOf (ps : List (String × ImageInfo)) : List DuplicateGroup :=
  (groupBySha ps).filterMap fun kv =>
    if 1 < kv.2.length then some ⟨kv.2, "exact", none⟩ else none

/-- Phase 4 prefilter: keep the first image for each distinct `sha256`
value (the `seen_sha256` set; with `find_exact` off every image carries
the same absent digest, so at most one image survives). -/
def uniqueBySha : List ImageInfo → List (Option String) → List ImageInfo
  | [], _ => []
  | i :: rest, seen =>
    if i.sha256 ∈ seen then uniqueBySha rest seen
    else i :: uniqueBySha rest (i.sha256 :: seen)

/-- `enumerate` starting at `n`. -/
def enumF : Nat → List α → List (Nat × α)
  | _, [] => []
  | n, a :: as => (n, a) :: enumF (n + 1) as

/-- The inner loop of the similarity clustering: scan the candidates
after the anchor, skip already-matched indices, and collect every
candidate whose combined distance to the anchor is at most the
threshold, marking it matched; also track the minimum combined distance
among the collected candidates.  Returns the collected `(index, image)`
pairs, the updated matched set and the minimum. -/
def innerScan (img1 : ImageInfo) (t : Int) :
    List (Nat × ImageInfo) → List Nat →
      List (Nat × ImageInfo) × List Nat × Option Nat
  | [], matched => ([], matched, none)
  | (j, img2) :: rest, matched =>
    if j ∈ matched then innerScan img1 t rest matched
    else
      if (sumDist img1 img2 : Int) ≤ 2 * t then
        match innerScan img1 t rest (j :: matched) with
        | (ms, m2, minS) =>
          ((j, img2) :: ms, m2,
            some (min (sumDist img1 img2)
              (minS.getD (sumDist img1 img2))))
      else innerScan img1 t rest matched

/-- The outer loop of the similarity clustering: each not-yet-matched
anchor scans the candidates after it; when at least one candidate joined,
the anchor is marked matched and a group is emitted whose similarity is
`int(min_distance)` (truncation of the minimum combined distance, i.e.
the minimum distance sum divided by two in `ℕ`).  Groups keep their
members' enumeration indices for bookkeeping; the engine drops the
indices. -/
def simCluster (t : Int) :
    List (Nat × ImageInfo) → List Nat →
      List Nat × List (List (Nat × ImageInfo) × Nat)
  | [], matched => (matched, [])
  | (i, img1) :: rest, matched =>
    if i ∈ matched then simCluster t rest matched
    else
      match innerScan img1 t rest matched with
      | (ms, matched2, minS) =>
        if ms.isEmpty then simCluster t rest matched2
        else
          let sim : Nat := (minS.getD 0) / 2
          match simCluster t rest (i :: matched2) with
          | (m', gs) => (m', ((i, img1) :: ms, sim) :: gs)

/-- Phase 4: similar groups of `find_duplicates`. -/
def similarGroupsOf (fe fs : Bool) (t : Int) (files : List FsImage) :
    List DuplicateGroup :=
  let uniq := uniqueBySha (phashListOf fe fs files) []
  (simCluster t (enumF 0 uniq) []).2.map fun g =>
    ⟨g.1.map Prod.snd, "similar", some g.2⟩

/-- `dedup.find_duplicates`.  The scanner collaborator is modelled by
the input list `files` (already enumerated candidate paths with their
file-system/hasher oracles); `hash_size` only fixes the bit-length of
the digests carried by the oracles, and the progress callback has no
observable effect on the result. -/
def find_duplicates (files : List FsImage) (find_exact find_similar : Bool)
    (similarity_threshold : Int) : DeduplicationResult :=
  let images := survivors files
  let errors1 := statErrors files
  let total_size := (images.map Prod.snd).sum
  if images.isEmpty then
    ⟨[], [], images.length, total_size, errors1⟩
  else
    let errors2 := hashErrors find_exact find_similar files
    let exact :=
      if find_exact then
        exactGroupsOf (shaPairsOf find_exact find_similar files)
      else []
    let similar :=
      if find_similar then
        similarGroupsOf find_exact find_similar similarity_threshold files
      else []
    ⟨exact, similar, images.length, total_size, errors1 ++ errors2⟩

/-! ### Scanner (`scanner.scan_multiple_directories`) -/

/-- One path yielded by `scan_directory`, with its resolved absolute form. -/
structure ScanFile where
  path : String
  resolved : String
deriving DecidableEq, Repr

/-- One root directory handed to the scanner.  `dirExists = false`
models `directory.exists()` returning `False` (and equally a root whose
listing yields nothing because it is unreadable): the directory is
skipped without any error. -/
structure Directory where
  dirExists : Bool
  files : List ScanFile
deriving DecidableEq, Repr

/-- Worker for `scan_multiple_directories`, threading the `seen` set of
resolved paths. -/
def scanMultiAux : List Directory → List String → List String
  | [], _ => []
  | d :: rest, seen =>
    if d.dirExists then
      let fresh := d.files.filter fun f => f.resolved ∉ seen
      (fresh.map ScanFile.path) ++
        scanMultiAux rest (seen ++ fresh.map ScanFile.resolved)
    else scanMultiAux rest seen

/-- `scanner.scan_multiple_directories`: yield each directory's image
files in order, skipping directories that do not exist and paths whose
resolved form was already seen. -/
def scan_multiple_directories (dirs : List Directory) : List String :=
  scanMultiAux dirs []

/-! ### HashCache (`cache.py`) -/

/-- `cache.CachedImage`: one row of the `image_hashes` table. -/
structure CachedImage where
  path : String
  size : Nat
  mtime : ℚ
  sha256 : Option String
  phash : Option String
  dhash : Option String
deriving DecidableEq, Repr

/-- The persisted table, one row per path (primary key). -/
def dbLookup (db : List CachedImage) (p : String) : Option CachedImage :=
  db.find? fun r => r.path == p

/-- `DELETE FROM image_hashes WHERE path = ?`. -/
def dbDelete (db : List CachedImage) (p : String) : List CachedImage :=
  db.filter fun r => r.path != p

/-- `HashCache.get`: stat the file (`st` is the stat oracle returning
`(st_size, st_mtime)`); treat a stat failure as absent; validate a found
row against the current size and mtime (tolerance `0.001` seconds) and
delete it when stale.  Returns the answer and the resulting table. -/
def cache_get (st : String → Option (Nat × ℚ)) (db : List CachedImage)
    (p : String) : Option CachedImage × List CachedImage :=
  match st p with
  | none => (none, db)
  | some (sz, mt) =>
    match dbLookup db p with
    | none => (none, db)
    | some row =>
      if row.size ≠ sz ∨ (1 : ℚ)/1000 < |row.mtime - mt| then
        (none, dbDelete db p)
      else (some row, db)

/-- `HashCache.set`: `INSERT OR REPLACE` of the row for `p`
(perceptual digests are stored stringified; the model takes the strings
directly). -/
def cache_set (db : List CachedImage) (p : String) (sz : Nat) (mt : ℚ)
    (sha ph dh : Option String) : List CachedImage :=
  dbDelete db p ++ [⟨p, sz, mt, sha, ph, dh⟩]

/-! ### Signatures (`dedup.find_duplicates` vs its caller `cli.run_scan`) -/

/-- The parameter names of `dedup.find_duplicates`, in source order. -/
def find_duplicates_params : List String :=
  ["directories", "recursive", "find_exact", "find_similar",
   "similarity_threshold", "hash_size", "progress_callback"]

/-- The keyword arguments `cli.run_scan` passes in its call
`find_duplicates(directories=…, …, use_cache=…, cache_path=…)`. -/
def run_scan_call_kwargs : List String :=
  ["directories", "recursive", "find_exact", "find_similar",
   "similarity_threshold", "hash_size", "progress_callback",
   "use_cache", "cache_path"]

/-! ### Concrete data used to exercise the definitions -/

/-- 8-bit digest with no bit set. -/
def zeros8 : List Bool := [false, false, false, false, false, false, false, false]

/-- 8-bit digest with one bit set. -/
def oneBit8 : List Bool := [true, false, false, false, false, false, false, false]

/-- 8-bit digest with three bits set. -/
def threeBits8 : List Bool := [true, true, true, false, false, false, false, false]

/-- 8-bit digest with four bits set. -/
def fourBits8 : List Bool := [true, true, true, true, false, false, false, false]

/-- 8-bit digest with every bit set. -/
def ones8 : List Bool := [true, true, true, true, true, true, true, true]

/-- Byte-identical pair member `a` (same sha and digests as `cxB`). -/
def cxA : FsImage := ⟨"a", some 100, some "s", some zeros8, some zeros8⟩

/-- Byte-identical pair member `b`. -/
def cxB : FsImage := ⟨"b", some 100, some "s", some zeros8, some zeros8⟩

/-- A file similar (combined distance 1/2) but not identical to `cxA`. -/
def cxC : FsImage := ⟨"c", some 90, some "t", some oneBit8, some zeros8⟩

/-- Byte-identical to `cxPhFailB` but its perceptual hashing fails. -/
def cxPhFailA : FsImage := ⟨"a", some 100, some "s", none, none⟩

/-- Byte-identical to `cxPhFailA` but its perceptual hashing fails. -/
def cxPhFailB : FsImage := ⟨"b", some 100, some "s", none, none⟩

/-- File at perceptual distance `(3 + 4) / 2 = 3.5` from `fsY`. -/
def fsX : FsImage := ⟨"x", some 10, some "s1", some zeros8, some zeros8⟩

/-- File at perceptual distance `(3 + 4) / 2 = 3.5` from `fsX`. -/
def fsY : FsImage := ⟨"y", some 20, some "s2", some threeBits8, some fourBits8⟩

/-- The `ImageInfo` produced for `fsX`. -/
def imgX : ImageInfo := ⟨"x", 10, some "s1", some zeros8, some zeros8⟩

/-- The `ImageInfo` produced for `fsY`. -/
def imgY : ImageInfo := ⟨"y", 20, some "s2", some threeBits8, some fourBits8⟩

/-- First member of a close pair, far from `wC`/`wD`. -/
def wA : FsImage := ⟨"a", some 1, some "sa", some zeros8, some zeros8⟩

/-- Second member of the close pair around `wA`. -/
def wB : FsImage := ⟨"b", some 2, some "sb", some zeros8, some zeros8⟩

/-- First member of a second close pair, far from `wA`/`wB`. -/
def wC : FsImage := ⟨"c", some 3, some "sc", some ones8, some ones8⟩

/-- Second member of the second close pair. -/
def wD : FsImage := ⟨"d", some 4, some "sd", some ones8, some ones8⟩

/-- A root directory that does not exist. -/
def dirMissing : Directory := ⟨false, [⟨"x", "rx"⟩]⟩

/-- A root directory that exists and holds one file. -/
def dirPresent : Directory := ⟨true, [⟨"y", "ry"⟩]⟩

/-- A file whose `stat` fails. -/
def statFailFile : FsImage := ⟨"w", none, none, none, none⟩

/-- A file whose exact digest computation fails. -/
def shaFailFile : FsImage := ⟨"q", some 3, none, some zeros8, some zeros8⟩

/-- A stat oracle: `"a"` has size 5 and mtime 2. -/
def stHit : String → Option (Nat × ℚ) := fun q =>
  if q = "a" then some (5, 2) else none

/-- A stat oracle: `"a"` has size 6 and mtime 2 (size changed). -/
def stGrown : String → Option (Nat × ℚ) := fun q =>
  if q = "a" then some (6, 2) else none

/-- A three-member group with sizes 5, 9 and 3. -/
def sizesGroup : DuplicateGroup :=
  ⟨[⟨"a", 5, none, none, none⟩, ⟨"b", 9, none, none, none⟩,
    ⟨"c", 3, none, none, none⟩], "exact", none⟩

end ImageDedup

namespace ImageDedup

/-! ### Basic lemmas about the engine's result fields -/

lemma survivors_nil_of_isEmpty {files : List FsImage}
    (h : (survivors files).isEmpty = true) : survivors files = [] :=
  List.isEmpty_iff.mp h

lemma find_duplicates_total_images (files : List FsImage) (fe fs : Bool)
    (t : Int) :
    (find_duplicates files fe fs t).total_images = (survivors files).length := by
  rw [find_duplicates]
  by_cases h : (survivors files).isEmpty <;> simp [h]

lemma find_duplicates_total_size (files : List FsImage) (fe fs : Bool)
    (t : Int) :
    (find_duplicates files fe fs t).total_size =
      ((survivors files).map Prod.snd).sum := by
  rw [find_duplicates]
  by_cases h : (survivors files).isEmpty <;> simp [h]

lemma find_duplicates_errors (files : List FsImage) (fe fs : Bool) (t : Int) :
    (find_duplicates files fe fs t).errors =
      statErrors files ++ hashErrors fe fs files := by
  rw [find_duplicates]
  by_cases h : (survivors files).isEmpty
  · have h0 : survivors files = [] := survivors_nil_of_isEmpty h
    simp [h, hashErrors, h0]
  · simp [h]

lemma find_duplicates_exact (files : List FsImage) (fe fs : Bool) (t : Int) :
    (find_duplicates files fe fs t).exact_duplicates =
      if (survivors files).isEmpty = true then []
      else if fe = true then exactGroupsOf (shaPairsOf fe fs files) else [] := by
  rw [find_duplicates]
  by_cases h : (survivors files).isEmpty <;> simp [h]

lemma find_duplicates_similar (files : List FsImage) (fe fs : Bool) (t : Int) :
    (find_duplicates files fe fs t).similar_images =
      if (survivors files).isEmpty = true then []
      else if fs = true then similarGroupsOf fe fs t files else [] := by
  rw [find_duplicates]
  by_cases h : (survivors files).isEmpty <;> simp [h]

/-! ### C1: the engine has no cache parameter, but its caller passes one -/

/-- C1: the claim says `find_duplicates` accepts an optional cache
argument and consults `HashCache.get`/`set`.  In the source,
`dedup.find_duplicates` has no cache-related parameter at all (and its
body never references `HashCache`), yet its only caller `cli.run_scan`
passes `use_cache=` and `cache_path=` keyword arguments — so every CLI
scan raises `TypeError`.  The engine's parameter list (embedded from the
source) contains no cache parameter, while the caller's keyword list
does. -/
theorem c1_cache_argument_missing :
    "use_cache" ∈ run_scan_call_kwargs ∧
    "cache_path" ∈ run_scan_call_kwargs ∧
    "use_cache" ∉ find_duplicates_params ∧
    "cache_path" ∉ find_duplicates_params ∧
    "cache" ∉ find_duplicates_params := by decide

/-! ### C8: potential savings -/

lemma le_foldr_max (l : List Nat) : ∀ x ∈ l, x ≤ l.foldr max 0 := by
  induction l with
  | nil => simp
  | cons a as ih =>
    intro x hx
    rcases List.mem_cons.mp hx with rfl | hx
    · exact le_max_left _ _
    · exact le_trans (ih x hx) (le_max_right _ _)

lemma foldr_max_le (c : Nat) (l : List Nat) (h : ∀ x ∈ l, x ≤ c) :
    l.foldr max 0 ≤ c := by
  induction l with
  | nil => simp
  | cons a as ih =>
    simp only [List.foldr_cons]
    exact max_le (h a (List.mem_cons_self a as))
      (ih fun x hx => h x (List.mem_cons_of_mem a hx))

/-- C8: for a group with at least two members, `potential_savings` is
exactly the group's total size minus the size of its single largest
member (hence in particular never exceeds that difference). -/
theorem c8_potential_savings (g : DuplicateGroup) (h : 2 ≤ g.images.length) :
    g.potential_savings + g.maxSize = g.total_size ∧
    g.potential_savings = g.total_size - g.maxSize ∧
    g.potential_savings ≤ g.total_size - g.maxSize := by
  have hlen : ¬ g.images.length ≤ 1 := by omega
  have hps : g.potential_savings =
      (((g.images.map ImageInfo.size).insertionSort (· ≥ ·)).tail).sum := by
    rw [DuplicateGroup.potential_savings, if_neg hlen]
  set l := g.images.map ImageInfo.size with hl
  have hperm : (l.insertionSort (· ≥ ·)).Perm l := List.perm_insertionSort _ l
  have hsort : List.Sorted (· ≥ ·) (l.insertionSort (· ≥ ·)) :=
    List.sorted_insertionSort _ l
  have hne : l.insertionSort (· ≥ ·) ≠ [] := by
    intro hnil
    have hlen' := hperm.length_eq
    rw [hnil] at hlen'
    simp only [List.length_nil] at hlen'
    rw [hl] at hlen'
    simp at hlen'
    omega
  obtain ⟨m, rest, hcons⟩ := List.exists_cons_of_ne_nil hne
  have hsum : m + rest.sum = l.sum := by
    have hs := hperm.sum_eq
    rw [hcons] at hs
    simpa using hs
  have hmax : g.maxSize = m := by
    have hm_mem : m ∈ l := hperm.mem_iff.mp (by rw [hcons]; exact List.mem_cons_self _ _)
    have hall : ∀ x ∈ l, x ≤ m := by
      intro x hx
      have hx' : x ∈ m :: rest := by rw [← hcons]; exact hperm.mem_iff.mpr hx
      rcases List.mem_cons.mp hx' with rfl | hx''
      · exact le_refl _
      · have hsort' := hsort
        rw [hcons] at hsort'
        exact List.rel_of_pairwise_cons hsort' hx''
    have h1 : g.maxSize ≤ m := foldr_max_le m l hall
    have h2 : m ≤ g.maxSize := le_foldr_max l m hm_mem
    omega
  have htot : g.total_size = l.sum := rfl
  have hps' : g.potential_savings = rest.sum := by rw [hps, hcons]; rfl
  refine ⟨?_, ?_, ?_⟩ <;> omega

/-- C8 witness: a concrete three-member group with sizes 5, 9, 3. -/
theorem c8_witness :
    2 ≤ sizesGroup.images.length ∧
    (sizesGroup.potential_savings + sizesGroup.maxSize = sizesGroup.total_size ∧
     sizesGroup.potential_savings = sizesGroup.total_size - sizesGroup.maxSize ∧
     sizesGroup.potential_savings ≤ sizesGroup.total_size - sizesGroup.maxSize) :=
  ⟨by decide, c8_potential_savings sizesGroup (by decide)⟩

end ImageDedup

namespace ImageDedup

/-! ### C5: cache round-trip -/

lemma find?_dbDelete (db : List CachedImage) (p : String) :
    dbLookup (dbDelete db p) p = none := by
  apply List.find?_eq_none.mpr
  intro r hr
  have hmem := (List.mem_filter.mp hr).2
  simp only [bne_iff_ne, ne_eq] at hmem
  simp [hmem]

lemma find?_append_of_none {α} (f : α → Bool) (l1 l2 : List α)
    (h : l1.find? f = none) : (l1 ++ l2).find? f = l2.find? f := by
  induction l1 with
  | nil => rfl
  | cons a as ih =>
    rw [List.find?_cons] at h
    rcases hfa : f a with _ | _
    · rw [hfa] at h
      rw [List.cons_append, List.find?_cons, hfa]
      exact ih h
    · rw [hfa] at h
      exact absurd h (by simp)

lemma dbLookup_cache_set (db : List CachedImage) (p : String) (sz : Nat)
    (mt : ℚ) (sha ph dh : Option String) :
    dbLookup (cache_set db p sz mt sha ph dh) p =
      some ⟨p, sz, mt, sha, ph, dh⟩ := by
  rw [cache_set, dbLookup,
    find?_append_of_none _ _ _ (find?_dbDelete db p)]
  simp [List.find?_cons]

/-- C5: `set` then `get`.  When the current stat matches the stored size
and mtime (within the `0.001` tolerance), `get` returns exactly the
stored row; when the size or mtime has drifted beyond the tolerance,
`get` returns absent and the stale row is gone from the resulting table;
when the stat itself fails, `get` returns absent. -/
theorem c5_cache_roundtrip (st : String → Option (Nat × ℚ))
    (db : List CachedImage) (p : String) (sz : Nat) (mt : ℚ)
    (sha ph dh : Option String) :
    (∀ sz' mt', st p = some (sz', mt') → sz' = sz → |mt - mt'| ≤ 1/1000 →
      (cache_get st (cache_set db p sz mt sha ph dh) p).1 =
        some ⟨p, sz, mt, sha, ph, dh⟩) ∧
    (∀ sz' mt', st p = some (sz', mt') → (sz' ≠ sz ∨ 1/1000 < |mt - mt'|) →
      (cache_get st (cache_set db p sz mt sha ph dh) p).1 = none ∧
      dbLookup (cache_get st (cache_set db p sz mt sha ph dh) p).2 p = none) ∧
    (st p = none →
      (cache_get st (cache_set db p sz mt sha ph dh) p).1 = none) := by
  have hlook := dbLookup_cache_set db p sz mt sha ph dh
  refine ⟨?_, ?_, ?_⟩
  · intro sz' mt' hst hsz hmt
    rw [cache_get, hst, hlook]
    simp only
    rw [if_neg]
    push_neg
    exact ⟨by omega, not_lt.mp (by simpa [abs_sub_comm] using hmt)⟩
  · intro sz' mt' hst hcond
    rw [cache_get, hst, hlook]
    simp only
    rw [if_pos]
    · exact ⟨rfl, find?_dbDelete _ p⟩
    · rcases hcond with h | h
      · exact Or.inl (by omega)
      · exact Or.inr (by simpa [abs_sub_comm] using h)
  · intro hst
    rw [cache_get, hst]

/-- C5 witness: a fresh `set` for path `"a"` (size 5, mtime 2) followed
by a `get` under a matching stat returns the stored row; under a stat
showing size 6 it returns absent and deletes the row; under a failing
stat it returns absent. -/
theorem c5_witness :
    ((cache_get stHit (cache_set [] "a" 5 2 (some "s") none none) "a").1 =
      some ⟨"a", 5, 2, some "s", none, none⟩) ∧
    ((cache_get stGrown (cache_set [] "a" 5 2 (some "s") none none) "a").1 =
        none ∧
      dbLookup
        (cache_get stGrown (cache_set [] "a" 5 2 (some "s") none none) "a").2
        "a" = none) ∧
    ((cache_get stHit (cache_set [] "b" 5 2 none none none) "b").1 = none) :=
  ⟨(c5_cache_roundtrip stHit [] "a" 5 2 (some "s") none none).1 5 2 rfl rfl
      (by norm_num),
   (c5_cache_roundtrip stGrown [] "a" 5 2 (some "s") none none).2.1 6 2 rfl
      (Or.inl (by norm_num)),
   (c5_cache_roundtrip stHit [] "b" 5 2 none none none).2.2 rfl⟩

end ImageDedup

namespace ImageDedup

/-! ### C7: failure semantics -/

lemma scanMultiAux_skip (d : Directory) (hd : d.dirExists = false) :
    ∀ (pre post : List Directory) (seen : List String),
      scanMultiAux (pre ++ d :: post) seen = scanMultiAux (pre ++ post) seen := by
  intro pre
  induction pre with
  | nil =>
    intro post seen
    simp [scanMultiAux, hd]
  | cons a pre ih =>
    intro post seen
    simp only [List.cons_append, scanMultiAux]
    rcases ha : a.dirExists with _ | _ <;> simp [ha, ih]

/-- C7 (amended): no per-file failure is fatal — every stat failure and
every hash failure ends up as a recorded `(path, message)` entry of the
returned result, which is always produced; but a root directory that
does not exist is silently skipped by `scan_multiple_directories`
(contributing neither files nor any error) instead of being surfaced. -/
theorem c7_amended_failure_semantics :
    (∀ (pre post : List Directory) (d : Directory), d.dirExists = false →
      scan_multiple_directories (pre ++ d :: post) =
        scan_multiple_directories (pre ++ post)) ∧
    (∀ (files : List FsImage) (fe fs : Bool) (t : Int),
      (find_duplicates files fe fs t).errors =
        statErrors files ++ hashErrors fe fs files) :=
  ⟨fun pre post d hd => scanMultiAux_skip d hd pre post [],
   fun files fe fs t => find_duplicates_errors files fe fs t⟩

/-- C7 witness: dropping the missing root changes nothing in the scan,
and a scan over one stat-failing and one sha-failing file records both
errors and still returns. -/
theorem c7_witness :
    scan_multiple_directories ([] ++ dirMissing :: [dirPresent]) =
      scan_multiple_directories ([] ++ [dirPresent]) ∧
    (find_duplicates [statFailFile, shaFailFile] true true 10).errors =
      statErrors [statFailFile, shaFailFile] ++
        hashErrors true true [statFailFile, shaFailFile] :=
  ⟨c7_amended_failure_semantics.1 [] [dirPresent] dirMissing rfl,
   c7_amended_failure_semantics.2 [statFailFile, shaFailFile] true true 10⟩

/-- C7 counterexample: the claim says an unreadable root directory is
"surfaced immediately as a fatal error".  In the source,
`scan_multiple_directories` hits `if not directory.exists(): continue`:
a scan whose only root is missing yields no paths, and the engine
returns an ordinary result with an empty error list — nothing is
surfaced. -/
theorem c7_counterexample :
    scan_multiple_directories [dirMissing] = [] ∧
    (find_duplicates [] true true 10).errors = [] ∧
    (find_duplicates [] true true 10).total_images = 0 := by decide

/-! ### C6: no configuration validation -/

lemma innerScan_neg (a : ImageInfo) (t : Int) (ht : t < 0) :
    ∀ (cand : List (Nat × ImageInfo)) (matched : List Nat),
      innerScan a t cand matched = ([], matched, none) := by
  intro cand
  induction cand with
  | nil => intro matched; rfl
  | cons e rest ih =>
    intro matched
    obtain ⟨j, img⟩ := e
    rw [innerScan]
    by_cases hj : j ∈ matched
    · rw [if_pos hj]; exact ih matched
    · have hs : (0 : Int) ≤ (sumDist a img : Int) := Int.natCast_nonneg _
      rw [if_neg hj, if_neg (by omega)]
      exact ih matched

lemma simCluster_neg (t : Int) (ht : t < 0) :
    ∀ (l : List (Nat × ImageInfo)) (matched : List Nat),
      (simCluster t l matched).2 = [] := by
  intro l
  induction l with
  | nil => intro matched; rfl
  | cons e rest ih =>
    intro matched
    obtain ⟨i, img⟩ := e
    rw [simCluster]
    by_cases hi : i ∈ matched
    · rw [if_pos hi]; exact ih matched
    · rw [if_neg hi, innerScan_neg img t ht rest matched]
      simp [ih matched]

/-- C6 (amended): the claim says an out-of-range similarity threshold is
rejected before any scanning begins.  `find_duplicates` performs no
validation at all: with any out-of-range threshold the scan proceeds
normally (all files counted, all sizes summed, all per-file errors
recorded); a negative threshold merely makes every comparison fail, so
no similar group is produced. -/
theorem c6_amended_no_validation (files : List FsImage) (fe fs : Bool)
    (t : Int) (_h : t < 0 ∨ 64 < t) :
    (find_duplicates files fe fs t).total_images = (survivors files).length ∧
    (find_duplicates files fe fs t).total_size =
      ((survivors files).map Prod.snd).sum ∧
    (find_duplicates files fe fs t).errors =
      statErrors files ++ hashErrors fe fs files ∧
    (t < 0 → (find_duplicates files fe fs t).similar_images = []) := by
  refine ⟨find_duplicates_total_images files fe fs t,
    find_duplicates_total_size files fe fs t,
    find_duplicates_errors files fe fs t, ?_⟩
  intro ht
  rw [find_duplicates_similar]
  by_cases hs : (survivors files).isEmpty
  · rw [if_pos hs]
  · rw [if_neg hs]
    rcases fs with _ | _
    · simp
    · simp only [if_pos rfl, similarGroupsOf]
      rw [simCluster_neg t ht]
      rfl

/-- C6 witness: threshold 100 (outside 0–64) at a two-file scan. -/
theorem c6_witness :
    (find_duplicates [fsX, fsY] true true 100).total_images =
      (survivors [fsX, fsY]).length ∧
    (find_duplicates [fsX, fsY] true true 100).total_size =
      ((survivors [fsX, fsY]).map Prod.snd).sum ∧
    (find_duplicates [fsX, fsY] true true 100).errors =
      statErrors [fsX, fsY] ++ hashErrors true true [fsX, fsY] ∧
    ((100 : Int) < 0 →
      (find_duplicates [fsX, fsY] true true 100).similar_images = []) :=
  c6_amended_no_validation [fsX, fsY] true true 100 (Or.inr (by decide))

/-- C6 counterexample: the claim says an invalid threshold is rejected
before any scanning begins.  With the out-of-range threshold 100 the
engine scans both files, groups them, and reports no error of any kind;
with the invalid threshold -1 it equally scans both files. -/
theorem c6_counterexample :
    (find_duplicates [fsX, fsY] true true 100).total_images = 2 ∧
    (find_duplicates [fsX, fsY] true true 100).similar_images.length = 1 ∧
    (find_duplicates [fsX, fsY] true true 100).errors = [] ∧
    (find_duplicates [fsX, fsY] true true (-1)).total_images = 2 := by decide

end ImageDedup

namespace ImageDedup

/-! ### Per-file hashing lemmas -/

lemma hashOne_shaEntry_spec {fe fs : Bool} {f : FsImage} {sz : Nat}
    {s : String} {i : ImageInfo}
    (h : (hashOne fe fs f sz).shaEntry = some (s, i)) :
    fe = true ∧ f.sha = some s ∧ i.path = f.path := by
  rcases fe with _ | _ <;> rcases fs with _ | _ <;>
    rcases hsha : f.sha with _ | s' <;>
    rcases hp : f.ph with _ | p <;> rcases hd : f.dh with _ | d <;>
    simp_all [hashOne]
  all_goals obtain ⟨rfl, rfl⟩ := h
  all_goals rfl

lemma hashOne_phEntry_spec {fe fs : Bool} {f : FsImage} {sz : Nat}
    {i : ImageInfo} (h : (hashOne fe fs f sz).phEntry = some i) :
    fs = true ∧ i.path = f.path ∧ f.ph ≠ none ∧ f.dh ≠ none ∧
      (fe = true → f.sha ≠ none) ∧ (fe = false → i.sha256 = none) := by
  rcases fe with _ | _ <;> rcases fs with _ | _ <;>
    rcases hsha : f.sha with _ | s' <;>
    rcases hp : f.ph with _ | p <;> rcases hd : f.dh with _ | d <;>
    simp_all [hashOne]
  all_goals subst h
  all_goals simp

lemma hashOne_sha_fail {fs : Bool} {f : FsImage} {sz : Nat}
    (h : f.sha = none) : hashOne true fs f sz = ⟨none, none, true⟩ := by
  rcases fs with _ | _ <;> simp [hashOne, h]

lemma hashOne_ph_fail {fe : Bool} {f : FsImage} {sz : Nat}
    (hph : f.ph = none ∨ f.dh = none) (hsha : fe = true → f.sha ≠ none) :
    (hashOne fe true f sz).errored = true ∧
      (hashOne fe true f sz).phEntry = none := by
  rcases fe with _ | _ <;> rcases hsha' : f.sha with _ | s
  · rcases hp : f.ph with _ | p <;> rcases hd : f.dh with _ | d <;>
      simp_all [hashOne]
  · rcases hp : f.ph with _ | p <;> rcases hd : f.dh with _ | d <;>
      simp_all [hashOne]
  · exact absurd hsha' (hsha rfl)
  · rcases hp : f.ph with _ | p <;> rcases hd : f.dh with _ | d <;>
      simp_all [hashOne]

/-! ### Provenance of the intermediate lists -/

lemma mem_survivors {files : List FsImage} {fz : FsImage × Nat}
    (h : fz ∈ survivors files) : fz.1 ∈ files ∧ fz.1.stat = some fz.2 := by
  rw [survivors] at h
  obtain ⟨f, hf, hsome⟩ := List.mem_filterMap.mp h
  rcases hstat : f.stat with _ | sz
  · rw [hstat] at hsome; simp at hsome
  · rw [hstat] at hsome
    have h2 : (f, sz) = fz := Option.some.inj hsome
    rw [← h2]
    exact ⟨hf, hstat⟩

lemma mem_survivors_of {files : List FsImage} {f : FsImage} {sz : Nat}
    (hf : f ∈ files) (hstat : f.stat = some sz) : (f, sz) ∈ survivors files := by
  rw [survivors]
  exact List.mem_filterMap.mpr ⟨f, hf, by rw [hstat]; rfl⟩

lemma mem_shaPairsOf {fe fs : Bool} {files : List FsImage} {s : String}
    {i : ImageInfo} (h : (s, i) ∈ shaPairsOf fe fs files) :
    ∃ f sz, f ∈ files ∧ f.stat = some sz ∧
      (hashOne fe fs f sz).shaEntry = some (s, i) := by
  rw [shaPairsOf] at h
  obtain ⟨fz, hfz, hsome⟩ := List.mem_filterMap.mp h
  obtain ⟨hmem, hstat⟩ := mem_survivors hfz
  exact ⟨fz.1, fz.2, hmem, hstat, hsome⟩

lemma mem_phashListOf {fe fs : Bool} {files : List FsImage} {i : ImageInfo}
    (h : i ∈ phashListOf fe fs files) :
    ∃ f sz, f ∈ files ∧ f.stat = some sz ∧
      (hashOne fe fs f sz).phEntry = some i := by
  rw [phashListOf] at h
  obtain ⟨fz, hfz, hsome⟩ := List.mem_filterMap.mp h
  obtain ⟨hmem, hstat⟩ := mem_survivors hfz
  exact ⟨fz.1, fz.2, hmem, hstat, hsome⟩

lemma mem_hashErrors_of {fe fs : Bool} {files : List FsImage} {f : FsImage}
    {sz : Nat} (hf : f ∈ files) (hstat : f.stat = some sz)
    (herr : (hashOne fe fs f sz).errored = true) :
    (f.path, "hash error") ∈ hashErrors fe fs files := by
  rw [hashErrors]
  exact List.mem_filterMap.mpr
    ⟨(f, sz), mem_survivors_of hf hstat, by simp [herr]⟩

lemma filterMap_map_sublist {α β γ : Type _} (F : α → Option β) (pa : α → γ)
    (pb : β → γ) (h : ∀ a b, F a = some b → pb b = pa a) :
    ∀ l : List α, ((l.filterMap F).map pb).Sublist (l.map pa) := by
  intro l
  induction l with
  | nil => simp
  | cons a as ih =>
    rw [List.filterMap_cons]
    rcases hFa : F a with _ | b
    · rw [List.map_cons]
      exact ih.cons _
    · rw [List.map_cons, List.map_cons, h a b hFa]
      exact ih.cons₂ _

lemma survivors_paths_sublist (files : List FsImage) :
    (((survivors files)).map fun fz => fz.1.path).Sublist
      (files.map FsImage.path) := by
  rw [survivors]
  refine filterMap_map_sublist _ _ _ ?_ files
  intro a b hb
  rcases hstat : a.stat with _ | sz
  · rw [hstat] at hb; simp at hb
  · rw [hstat] at hb
    have h2 : (a, sz) = b := Option.some.inj hb
    rw [← h2]

lemma phashListOf_paths_sublist (fe fs : Bool) (files : List FsImage) :
    ((phashListOf fe fs files).map ImageInfo.path).Sublist
      (files.map FsImage.path) := by
  refine List.Sublist.trans ?_ (survivors_paths_sublist files)
  rw [phashListOf]
  refine filterMap_map_sublist _ _ _ ?_ (survivors files)
  intro fz i hi
  exact (hashOne_phEntry_spec hi).2.1

lemma shaPairsOf_paths_sublist (fe fs : Bool) (files : List FsImage) :
    ((shaPairsOf fe fs files).map fun q => q.2.path).Sublist
      (files.map FsImage.path) := by
  refine List.Sublist.trans ?_ (survivors_paths_sublist files)
  rw [shaPairsOf]
  refine filterMap_map_sublist _ _ _ ?_ (survivors files)
  intro fz q hq
  obtain ⟨s, i⟩ := q
  exact (hashOne_shaEntry_spec hq).2.2

/-! ### C9: similarity-only scans produce nothing -/

lemma uniqueBySha_none_seen :
    ∀ (l : List ImageInfo) (seen : List (Option String)),
      (∀ i ∈ l, i.sha256 = none) → none ∈ seen → uniqueBySha l seen = [] := by
  intro l
  induction l with
  | nil => intro seen _ _; rfl
  | cons x rest ih =>
    intro seen hall hseen
    rw [uniqueBySha, if_pos (by rw [hall x (List.mem_cons_self x rest)]; exact hseen)]
    exact ih seen (fun i hi => hall i (List.mem_cons_of_mem x hi)) hseen

lemma uniqueBySha_all_none (l : List ImageInfo)
    (h : ∀ i ∈ l, i.sha256 = none) :
    uniqueBySha l [] = [] ∨ ∃ x, uniqueBySha l [] = [x] := by
  rcases l with _ | ⟨x, rest⟩
  · exact Or.inl rfl
  · right
    refine ⟨x, ?_⟩
    rw [uniqueBySha, if_neg (by simp)]
    rw [uniqueBySha_none_seen rest (x.sha256 :: [])
      (fun i hi => h i (List.mem_cons_of_mem x hi))
      (by rw [h x (List.mem_cons_self x rest)]; exact List.mem_cons_self _ _)]

/-- C9: with `find_similar=True` and `find_exact=False` the engine never
reports a similar group: no exact digests are computed, so all files in
`phash_list` carry the same absent `sha256`, the `seen_sha256` filter
collapses them to the first one, and a single candidate can never form a
group of two. -/
theorem c9_similar_only_empty (files : List FsImage) (t : Int) :
    (find_duplicates files false true t).similar_images = [] := by
  rw [find_duplicates_similar]
  by_cases h : (survivors files).isEmpty
  · rw [if_pos h]
  · rw [if_neg h, if_pos rfl, similarGroupsOf]
    have hnone : ∀ i ∈ phashListOf false true files, i.sha256 = none := by
      intro i hi
      obtain ⟨f, sz, _, _, hph⟩ := mem_phashListOf hi
      exact (hashOne_phEntry_spec hph).2.2.2.2.2 rfl
    rcases uniqueBySha_all_none _ hnone with h1 | ⟨x, h1⟩ <;>
      rw [h1] <;> simp [enumF, simCluster, innerScan]

end ImageDedup

namespace ImageDedup

/-! ### Characterization of the sha bucket map -/

lemma groupBySha_keys_complete :
    ∀ (ps : List (String × ImageInfo)), ∀ q ∈ ps,
      q.1 ∈ (groupBySha ps).map Prod.fst := by
  intro ps
  induction ps with
  | nil => intro q hq; simp at hq
  | cons e rest ih =>
    intro q hq
    obtain ⟨s, i⟩ := e
    simp only [groupBySha, List.map_cons]
    rcases List.mem_cons.mp hq with rfl | hq'
    · exact List.mem_cons_self _ _
    · by_cases hqs : q.1 = s
      · rw [hqs]; exact List.mem_cons_self _ _
      · obtain ⟨kv, hkv, hfst⟩ := List.mem_map.mp (ih q hq')
        refine List.mem_cons_of_mem _ (List.mem_map.mpr ⟨kv, ?_, hfst⟩)
        refine List.mem_filter.mpr ⟨hkv, ?_⟩
        rw [bne_iff_ne, hfst]
        exact hqs

lemma groupBySha_keys_nodup :
    ∀ (ps : List (String × ImageInfo)), ((groupBySha ps).map Prod.fst).Nodup := by
  intro ps
  induction ps with
  | nil => simp [groupBySha]
  | cons e rest ih =>
    obtain ⟨s, i⟩ := e
    simp only [groupBySha, List.map_cons]
    rw [List.nodup_cons]
    refine ⟨?_, ?_⟩
    · intro hmem
      obtain ⟨kv, hkv, hfst⟩ := List.mem_map.mp hmem
      have hne := (List.mem_filter.mp hkv).2
      rw [bne_iff_ne] at hne
      exact hne hfst
    · have h3 := ih.filter fun k => k != s
      rw [List.filter_map] at h3
      exact h3

lemma groupBySha_bucket :
    ∀ (ps : List (String × ImageInfo)), ∀ kv ∈ groupBySha ps,
      kv.2 = (ps.filter fun q => q.1 == kv.1).map Prod.snd := by
  intro ps
  induction ps with
  | nil => intro kv hkv; simp [groupBySha] at hkv
  | cons e rest ih =>
    obtain ⟨s, i⟩ := e
    intro kv hkv
    simp only [groupBySha] at hkv
    rcases List.mem_cons.mp hkv with rfl | hkv'
    · simp only
      rw [List.filter_cons, if_pos (by simp)]
      rcases hfind : (groupBySha rest).find? fun kv' => kv'.1 == s
        with _ | kv0
      · have hfilter : rest.filter (fun q => q.1 == s) = [] := by
          rw [List.filter_eq_nil_iff]
          intro q hq hq2
          rw [beq_iff_eq] at hq2
          obtain ⟨kv1, hkv1, hfst1⟩ :=
            List.mem_map.mp (groupBySha_keys_complete rest q hq)
          exact absurd (by simp [hfst1, hq2] :
              (fun kv' : String × List ImageInfo => kv'.1 == s) kv1 = true)
            (List.find?_eq_none.mp hfind kv1 hkv1)
        simp [hfind, hfilter]
      · have hkey0 : kv0.1 = s := by
          have hb := List.find?_some hfind
          rwa [beq_iff_eq] at hb
        have hbucket := ih kv0 (List.mem_of_find?_eq_some hfind)
        rw [hkey0] at hbucket
        simp [hfind, hbucket]
    · have hkv2 := List.mem_filter.mp hkv'
      have hne : kv.1 ≠ s := by
        have := hkv2.2
        rwa [bne_iff_ne] at this
      rw [ih kv hkv2.1, List.filter_cons,
        if_neg (by simp only [beq_iff_eq]; exact Ne.symm hne)]

/-! ### Exact groups are pairwise path-disjoint -/

lemma exactGroups_pathDisjoint (files : List FsImage) (fe fs : Bool) (t : Int)
    (hN : (files.map FsImage.path).Nodup) :
    List.Pairwise PathDisjoint (find_duplicates files fe fs t).exact_duplicates := by
  rw [find_duplicates_exact]
  by_cases h : (survivors files).isEmpty
  · rw [if_pos h]; exact List.Pairwise.nil
  · rw [if_neg h]
    rcases fe with _ | _
    · simp
    · rw [if_pos rfl, exactGroupsOf]
      have hNodupPaths : ((shaPairsOf true fs files).map fun q => q.2.path).Nodup :=
        (shaPairsOf_paths_sublist true fs files).nodup hN
      have hpair : List.Pairwise
          (fun kv kv' : String × List ImageInfo => kv.1 ≠ kv'.1)
          (groupBySha (shaPairsOf true fs files)) :=
        List.pairwise_map.mp (groupBySha_keys_nodup _)
      have hpair2 : List.Pairwise (fun kv kv' : String × List ImageInfo =>
          ∀ p ∈ kv.2.map ImageInfo.path, p ∉ kv'.2.map ImageInfo.path)
          (groupBySha (shaPairsOf true fs files)) := by
        refine hpair.imp_of_mem ?_
        intro kv kv' hkv hkv' hne p hp hp'
        rw [groupBySha_bucket _ kv hkv, List.map_map] at hp
        rw [groupBySha_bucket _ kv' hkv', List.map_map] at hp'
        obtain ⟨q, hq, hqp⟩ := List.mem_map.mp hp
        obtain ⟨q', hq', hqp'⟩ := List.mem_map.mp hp'
        have hqmem := (List.mem_filter.mp hq).1
        have hqmem' := (List.mem_filter.mp hq').1
        have hqkey : q.1 = kv.1 := by
          have := (List.mem_filter.mp hq).2
          rwa [beq_iff_eq] at this
        have hqkey' : q'.1 = kv'.1 := by
          have := (List.mem_filter.mp hq').2
          rwa [beq_iff_eq] at this
        have heq : q = q' :=
          List.inj_on_of_nodup_map hNodupPaths hqmem hqmem'
            (hqp.trans hqp'.symm)
        exact hne ((hqkey.symm.trans (by rw [heq])).trans hqkey')
      refine List.Pairwise.filterMap _ ?_ hpair2
      intro kv kv' hrel g hg g' hg'
      by_cases hl : 1 < kv.2.length
      · by_cases hl' : 1 < kv'.2.length
        · rw [if_pos hl] at hg
          rw [if_pos hl'] at hg'
          have hgi : g.images = kv.2 := by
            have h4 := Option.some.inj (Option.mem_def.mp hg)
            rw [← h4]
          have hgi' : g'.images = kv'.2 := by
            have h4 := Option.some.inj (Option.mem_def.mp hg')
            rw [← h4]
          intro p hp hp'
          rw [groupPaths, hgi] at hp
          rw [groupPaths, hgi'] at hp'
          exact hrel p hp hp'
        · rw [if_neg hl'] at hg'
          simp at hg'
      · rw [if_neg hl] at hg
        simp at hg

end ImageDedup

namespace ImageDedup

/-! ### Characterization of the similarity inner scan -/

lemma innerScan_spec (a : ImageInfo) (t : Int) :
    ∀ (cand : List (Nat × ImageInfo)) (matched : List Nat),
      (cand.map Prod.fst).Nodup →
      innerScan a t cand matched =
        (cand.filter fun e => decide (e.1 ∉ matched) &&
            decide ((sumDist a e.2 : Int) ≤ 2 * t),
         ((cand.filter fun e => decide (e.1 ∉ matched) &&
            decide ((sumDist a e.2 : Int) ≤ 2 * t)).map Prod.fst).reverse ++
           matched,
         minN? ((cand.filter fun e => decide (e.1 ∉ matched) &&
            decide ((sumDist a e.2 : Int) ≤ 2 * t)).map fun e =>
              sumDist a e.2)) := by
  intro cand
  induction cand with
  | nil => intro matched _; rfl
  | cons e rest ih =>
    intro matched hN
    obtain ⟨j, c⟩ := e
    rw [List.map_cons, List.nodup_cons] at hN
    obtain ⟨hj_notin, hN'⟩ := hN
    rw [innerScan]
    by_cases hj : j ∈ matched
    · rw [if_pos hj, ih matched hN', List.filter_cons, if_neg (by simp [hj])]
    · by_cases hd : (sumDist a c : Int) ≤ 2 * t
      · rw [if_neg hj, if_pos hd, ih (j :: matched) hN']
        have hcongr : (rest.filter fun e => decide (e.1 ∉ j :: matched) &&
            decide ((sumDist a e.2 : Int) ≤ 2 * t)) =
            rest.filter fun e => decide (e.1 ∉ matched) &&
            decide ((sumDist a e.2 : Int) ≤ 2 * t) := by
          apply List.filter_congr
          intro x hx
          have hxj : x.1 ≠ j := by
            intro heq
            exact hj_notin (heq ▸ List.mem_map.mpr ⟨x, hx, rfl⟩)
          have hiff : (x.1 ∉ j :: matched) ↔ (x.1 ∉ matched) := by
            simp [List.mem_cons, hxj]
          rw [show decide (x.1 ∉ j :: matched) = decide (x.1 ∉ matched) from
            decide_eq_decide.mpr hiff]
        rw [hcongr]
        simp [List.filter_cons, hj, hd, minN?, List.reverse_cons,
          List.append_assoc]
      · rw [if_neg hj, if_neg hd, ih matched hN', List.filter_cons,
          if_neg (by simp [hj, hd])]

/-! ### Invariants of the similarity outer loop -/

lemma simCluster_spec (t : Int) :
    ∀ (l : List (Nat × ImageInfo)) (matched : List Nat),
      (l.map Prod.fst).Nodup →
      (∀ k ∈ matched, k ∈ (simCluster t l matched).1) ∧
      (∀ g ∈ (simCluster t l matched).2, ∀ e ∈ g.1, e ∈ l ∧ e.1 ∉ matched) ∧
      List.Pairwise (fun g g' : List (Nat × ImageInfo) × Nat =>
          ∀ e ∈ g.1, ∀ e' ∈ g'.1, e.1 ≠ e'.1)
        (simCluster t l matched).2 := by
  intro l
  induction l with
  | nil =>
    intro matched _
    refine ⟨fun k hk => hk, ?_, ?_⟩
    · intro g hg
      simp [simCluster] at hg
    · simp [simCluster]
  | cons e rest ih =>
    intro matched hN
    obtain ⟨i, a⟩ := e
    rw [List.map_cons, List.nodup_cons] at hN
    obtain ⟨hi_notin, hN'⟩ := hN
    by_cases hi : i ∈ matched
    · rw [show simCluster t ((i, a) :: rest) matched =
          simCluster t rest matched by rw [simCluster, if_pos hi]]
      obtain ⟨ih1, ih2, ih3⟩ := ih matched hN'
      exact ⟨ih1, fun g hg e he =>
        ⟨List.mem_cons_of_mem _ (ih2 g hg e he).1, (ih2 g hg e he).2⟩, ih3⟩
    · have hstep : simCluster t ((i, a) :: rest) matched =
          (match innerScan a t rest matched with
           | (ms, matched2, minS) =>
             if ms.isEmpty then simCluster t rest matched2
             else
               match simCluster t rest (i :: matched2) with
               | (m', gs) => (m', ((i, a) :: ms, (minS.getD 0) / 2) :: gs)) := by
        rw [simCluster, if_neg hi]
      rw [innerScan_spec a t rest matched hN'] at hstep
      by_cases hms : (rest.filter fun e => decide (e.1 ∉ matched) &&
          decide ((sumDist a e.2 : Int) ≤ 2 * t)).isEmpty
      · have hnil : (rest.filter fun e => decide (e.1 ∉ matched) &&
            decide ((sumDist a e.2 : Int) ≤ 2 * t)) = [] :=
          List.isEmpty_iff.mp hms
        rw [hnil] at hstep
        simp only [List.map_nil, List.reverse_nil, List.nil_append,
          List.isEmpty_nil, if_pos] at hstep
        rw [hstep]
        obtain ⟨ih1, ih2, ih3⟩ := ih matched hN'
        exact ⟨ih1, fun g hg e he =>
          ⟨List.mem_cons_of_mem _ (ih2 g hg e he).1, (ih2 g hg e he).2⟩, ih3⟩
      · have hms' : ¬ (rest.filter fun e => decide (e.1 ∉ matched) &&
            decide ((sumDist a e.2 : Int) ≤ 2 * t)).isEmpty = true := hms
        set flt := rest.filter fun e => decide (e.1 ∉ matched) &&
          decide ((sumDist a e.2 : Int) ≤ 2 * t) with hflt
        set m2 := (flt.map Prod.fst).reverse ++ matched with hm2
        obtain ⟨ih1, ih2, ih3⟩ := ih (i :: m2) hN'
        rcases hsc : simCluster t rest (i :: m2) with ⟨m', gs⟩
        rw [hsc] at ih1 ih2 ih3
        simp only [hms', Bool.false_eq_true, if_false, hsc] at hstep
        rw [hstep]
        have hsubm : ∀ k ∈ matched, k ∈ i :: m2 := fun k hk =>
          List.mem_cons_of_mem _ (List.mem_append_right _ hk)
        have hflt_mem : ∀ e ∈ flt, e ∈ rest ∧ e.1 ∉ matched := by
          intro e he
          have h1 := List.mem_filter.mp he
          refine ⟨h1.1, ?_⟩
          have h2 := h1.2
          rw [Bool.and_eq_true] at h2
          exact of_decide_eq_true h2.1
        refine ⟨?_, ?_, ?_⟩
        · intro k hk
          exact ih1 k (hsubm k hk)
        · intro g hg e he
          rcases List.mem_cons.mp hg with rfl | hg'
          · rcases List.mem_cons.mp he with rfl | he'
            · exact ⟨List.mem_cons_self _ _, hi⟩
            · exact ⟨List.mem_cons_of_mem _ (hflt_mem e he').1,
                (hflt_mem e he').2⟩
          · obtain ⟨h1, h2⟩ := ih2 g hg' e he
            exact ⟨List.mem_cons_of_mem _ h1,
              fun hmem => h2 (hsubm e.1 hmem)⟩
        · rw [List.pairwise_cons]
          refine ⟨?_, ih3⟩
          intro g' hg' e he e' he'
          have he'notin : e'.1 ∉ i :: m2 := (ih2 g' hg' e' he').2
          have hein : e.1 ∈ i :: m2 := by
            rcases List.mem_cons.mp he with rfl | he2
            · exact List.mem_cons_self _ _
            · exact List.mem_cons_of_mem _
                (List.mem_append_left _
                  (List.mem_reverse.mpr (List.mem_map.mpr ⟨e, he2, rfl⟩)))
          intro heq
          exact he'notin (heq ▸ hein)

/-! ### Enumeration lemmas -/

lemma enumF_map_snd : ∀ (l : List α) (n : Nat),
    (enumF n l).map Prod.snd = l := by
  intro l
  induction l with
  | nil => intro n; rfl
  | cons a as ih => intro n; simp [enumF, ih]

lemma mem_enumF_le : ∀ (l : List α) (n k : Nat) (a : α),
    (k, a) ∈ enumF n l → n ≤ k := by
  intro l
  induction l with
  | nil => intro n k a h; simp [enumF] at h
  | cons b bs ih =>
    intro n k a h
    rcases List.mem_cons.mp h with heq | h'
    · have : k = n := congrArg Prod.fst heq
      omega
    · have := ih (n + 1) k a h'
      omega

lemma enumF_fst_nodup : ∀ (l : List α) (n : Nat),
    ((enumF n l).map Prod.fst).Nodup := by
  intro l
  induction l with
  | nil => intro n; simp [enumF]
  | cons a as ih =>
    intro n
    rw [show enumF n (a :: as) = (n, a) :: enumF (n + 1) as from rfl,
      List.map_cons, List.nodup_cons]
    refine ⟨?_, ih (n + 1)⟩
    intro hmem
    obtain ⟨e, he, hfst⟩ := List.mem_map.mp hmem
    obtain ⟨k, b⟩ := e
    have := mem_enumF_le as (n + 1) k b he
    simp only at hfst
    omega

lemma mem_enumF_getElem? : ∀ (l : List α) (n k : Nat) (a : α),
    (k, a) ∈ enumF n l → l[k - n]? = some a := by
  intro l
  induction l with
  | nil => intro n k a h; simp [enumF] at h
  | cons b bs ih =>
    intro n k a h
    rcases List.mem_cons.mp h with heq | h'
    · have h1 : k = n := congrArg Prod.fst heq
      have h2 : a = b := congrArg Prod.snd heq
      subst h1
      subst h2
      simp
    · have hk := mem_enumF_le bs (n + 1) k a h'
      have hrec := ih (n + 1) k a h'
      have hidx : k - n = (k - (n + 1)) + 1 := by omega
      rw [hidx, List.getElem?_cons_succ]
      exact hrec

end ImageDedup

namespace ImageDedup

/-! ### Similar groups are pairwise path-disjoint -/

lemma uniqueBySha_sublist : ∀ (l : List ImageInfo) (seen : List (Option String)),
    (uniqueBySha l seen).Sublist l := by
  intro l
  induction l with
  | nil => intro seen; simp [uniqueBySha]
  | cons x rest ih =>
    intro seen
    rw [uniqueBySha]
    by_cases h : x.sha256 ∈ seen
    · rw [if_pos h]; exact (ih seen).cons _
    · rw [if_neg h]; exact (ih _).cons₂ _

lemma mem_enumF_snd {l : List α} {n : Nat} {e : Nat × α}
    (h : e ∈ enumF n l) : e.2 ∈ l := by
  have h2 : e.2 ∈ (enumF n l).map Prod.snd := List.mem_map.mpr ⟨e, h, rfl⟩
  rwa [enumF_map_snd] at h2

lemma similarGroups_pathDisjoint (files : List FsImage) (fe fs : Bool)
    (t : Int) (hN : (files.map FsImage.path).Nodup) :
    List.Pairwise PathDisjoint (find_duplicates files fe fs t).similar_images := by
  rw [find_duplicates_similar]
  by_cases h : (survivors files).isEmpty
  · rw [if_pos h]; exact List.Pairwise.nil
  · rw [if_neg h]
    rcases fs with _ | _
    · simp
    · rw [if_pos rfl, similarGroupsOf]
      have hpaths : ((uniqueBySha (phashListOf fe true files) []).map
          ImageInfo.path).Nodup :=
        (((uniqueBySha_sublist _ _).map ImageInfo.path).trans
          (phashListOf_paths_sublist fe true files)).nodup hN
      obtain ⟨_, hmem, hpair⟩ := simCluster_spec t
        (enumF 0 (uniqueBySha (phashListOf fe true files) [])) []
        (enumF_fst_nodup _ 0)
      have hpair2 : List.Pairwise
          (fun g g' : List (Nat × ImageInfo) × Nat =>
            PathDisjoint ⟨g.1.map Prod.snd, "similar", some g.2⟩
              ⟨g'.1.map Prod.snd, "similar", some g'.2⟩)
          (simCluster t
            (enumF 0 (uniqueBySha (phashListOf fe true files) [])) []).2 := by
        refine hpair.imp_of_mem ?_
        intro g g' hg hg' hrel p hp hp'
        rw [groupPaths, List.map_map] at hp hp'
        obtain ⟨e, he, hep⟩ := List.mem_map.mp hp
        obtain ⟨e', he', hep'⟩ := List.mem_map.mp hp'
        have hmem_e := (hmem g hg e he).1
        have hmem_e' := (hmem g' hg' e' he').1
        have hg1 : (uniqueBySha (phashListOf fe true files) [])[e.1]? =
            some e.2 := by
          have := mem_enumF_getElem? _ 0 e.1 e.2 (by
            rw [show (e.1, e.2) = e from rfl]; exact hmem_e)
          rwa [Nat.sub_zero] at this
        have hg2 : (uniqueBySha (phashListOf fe true files) [])[e'.1]? =
            some e'.2 := by
          have := mem_enumF_getElem? _ 0 e'.1 e'.2 (by
            rw [show (e'.1, e'.2) = e' from rfl]; exact hmem_e')
          rwa [Nat.sub_zero] at this
        have hm1 : ((uniqueBySha (phashListOf fe true files) []).map
            ImageInfo.path)[e.1]? = some p := by
          rw [List.getElem?_map, hg1]
          rw [show Option.map ImageInfo.path (some e.2) = some e.2.path from
            rfl]
          exact congrArg some hep
        have hm2 : ((uniqueBySha (phashListOf fe true files) []).map
            ImageInfo.path)[e'.1]? = some p := by
          rw [List.getElem?_map, hg2]
          rw [show Option.map ImageInfo.path (some e'.2) = some e'.2.path from
            rfl]
          exact congrArg some hep'
        have hlt : e.1 < ((uniqueBySha (phashListOf fe true files) []).map
            ImageInfo.path).length :=
          (List.getElem?_eq_some_iff.mp hm1).1
        have heq : e.1 = e'.1 :=
          List.getElem?_inj hlt hpaths (hm1.trans hm2.symm)
        exact hrel e he e' he' heq
      exact List.Pairwise.map _ (fun g g' hgg => hgg) hpair2

/-- C10: the similar groups of any result are pairwise disjoint (stated
over member paths, for inputs whose candidate paths are distinct): a
file marked matched is never compared again and never anchors a later
group. -/
theorem c10_similar_groups_disjoint (files : List FsImage) (fe fs : Bool)
    (t : Int) (hN : (files.map FsImage.path).Nodup) :
    List.Pairwise PathDisjoint
      (find_duplicates files fe fs t).similar_images :=
  similarGroups_pathDisjoint files fe fs t hN

/-- C10 witness: two far-apart close pairs produce two similar groups,
and the theorem applies to them. -/
theorem c10_witness :
    List.Pairwise PathDisjoint
      (find_duplicates [wA, wB, wC, wD] true true 3).similar_images :=
  c10_similar_groups_disjoint [wA, wB, wC, wD] true true 3 (by decide)

/-- C2 (amended): a file path appears in at most one exact group and in
at most one similar group — both lists are pairwise path-disjoint — but
not "at most one group overall": the kept representative of an
exact-duplicate cluster also takes part in similarity clustering (the
`exact_hashes` set in the source is computed and never used), so it can
additionally appear in a similar group (see the counterexample). -/
theorem c2_amended_groups_disjoint (files : List FsImage) (fe fs : Bool)
    (t : Int) (hN : (files.map FsImage.path).Nodup) :
    List.Pairwise PathDisjoint
      (find_duplicates files fe fs t).exact_duplicates ∧
    List.Pairwise PathDisjoint
      (find_duplicates files fe fs t).similar_images :=
  ⟨exactGroups_pathDisjoint files fe fs t hN,
   similarGroups_pathDisjoint files fe fs t hN⟩

/-- C2 witness: three concrete files with distinct paths. -/
theorem c2_witness :
    List.Pairwise PathDisjoint
      (find_duplicates [cxA, cxB, cxC] true true 10).exact_duplicates ∧
    List.Pairwise PathDisjoint
      (find_duplicates [cxA, cxB, cxC] true true 10).similar_images :=
  c2_amended_groups_disjoint [cxA, cxB, cxC] true true 10 (by decide)

/-- C2 counterexample: the claim says each path appears in at most one
group overall, counting exact and similar groups together.  With `a`, `b`
byte-identical and `c` perceptually close to `a`, the path `"a"` appears
both in the single exact group and in the single similar group. -/
theorem c2_counterexample :
    (find_duplicates [cxA, cxB, cxC] true true 10).exact_duplicates.length
        = 1 ∧
    (find_duplicates [cxA, cxB, cxC] true true 10).similar_images.length
        = 1 ∧
    "a" ∈ groupPaths
      (((find_duplicates [cxA, cxB, cxC] true true 10).exact_duplicates).headD
        ⟨[], "", none⟩) ∧
    "a" ∈ groupPaths
      (((find_duplicates [cxA, cxB, cxC] true true 10).similar_images).headD
        ⟨[], "", none⟩) := by decide

end ImageDedup

namespace ImageDedup

/-! ### C3: failed digests and error recording -/

lemma exact_member_mem_shaPairs {files : List FsImage} {fe fs : Bool}
    {t : Int} {g : DuplicateGroup} {i : ImageInfo}
    (hg : g ∈ (find_duplicates files fe fs t).exact_duplicates)
    (hi : i ∈ g.images) : ∃ s, (s, i) ∈ shaPairsOf fe fs files := by
  rw [find_duplicates_exact] at hg
  by_cases h : (survivors files).isEmpty
  · rw [if_pos h] at hg; simp at hg
  · rw [if_neg h] at hg
    rcases fe with _ | _
    · simp at hg
    · rw [if_pos rfl, exactGroupsOf] at hg
      obtain ⟨kv, hkv, hpick⟩ := List.mem_filterMap.mp hg
      by_cases hl : 1 < kv.2.length
      · rw [if_pos hl] at hpick
        have hgi : g.images = kv.2 := by
          have h4 := Option.some.inj hpick
          rw [← h4]
        rw [hgi, groupBySha_bucket _ kv hkv] at hi
        obtain ⟨q, hq, hsnd⟩ := List.mem_map.mp hi
        refine ⟨q.1, ?_⟩
        have hq1 := (List.mem_filter.mp hq).1
        have : (q.1, i) = q := by rw [← hsnd]
        rw [this]
        exact hq1
      · rw [if_neg hl] at hpick
        simp at hpick

lemma similar_member_mem_phashList {files : List FsImage} {fe fs : Bool}
    {t : Int} {g : DuplicateGroup} {i : ImageInfo}
    (hg : g ∈ (find_duplicates files fe fs t).similar_images)
    (hi : i ∈ g.images) : i ∈ phashListOf fe fs files := by
  rw [find_duplicates_similar] at hg
  by_cases h : (survivors files).isEmpty
  · rw [if_pos h] at hg; simp at hg
  · rw [if_neg h] at hg
    rcases fs with _ | _
    · simp at hg
    · rw [if_pos rfl, similarGroupsOf] at hg
      obtain ⟨gr, hgr, hmap⟩ := List.mem_map.mp hg
      have hgi : g.images = gr.1.map Prod.snd := by
        rw [← hmap]
      rw [hgi] at hi
      obtain ⟨e, he, hsnd⟩ := List.mem_map.mp hi
      obtain ⟨_, hmem, _⟩ := simCluster_spec t
        (enumF 0 (uniqueBySha (phashListOf fe true files) [])) []
        (enumF_fst_nodup _ 0)
      have hmem_e := (hmem gr hgr e he).1
      have he2 : e.2 ∈ uniqueBySha (phashListOf fe true files) [] :=
        mem_enumF_snd hmem_e
      rw [hsnd] at he2
      exact (uniqueBySha_sublist _ _).mem he2

/-- C3 (amended): a file whose digest computation fails is recorded as a
`(path, message)` error and is still counted in `total_images` and
`total_size`.  A file whose *exact* digest fails joins no group at all
(neither exact nor similar).  A file whose *perceptual* digest fails
joins no similar group — but, against the claim, it is not excluded from
exact grouping: its exact digest was already appended to
`sha256_groups` before the perceptual computation raised (see the
counterexample). -/
theorem c3_amended_error_handling (files : List FsImage) (fe fs : Bool)
    (t : Int) (hN : (files.map FsImage.path).Nodup) (f : FsImage)
    (hf : f ∈ files) (sz : Nat) (hst : f.stat = some sz) :
    (find_duplicates files fe fs t).total_images = (survivors files).length ∧
    (find_duplicates files fe fs t).total_size =
      ((survivors files).map Prod.snd).sum ∧
    (fe = true → f.sha = none →
      (f.path, "hash error") ∈ (find_duplicates files fe fs t).errors ∧
      (∀ g ∈ (find_duplicates files fe fs t).exact_duplicates,
        f.path ∉ groupPaths g) ∧
      (∀ g ∈ (find_duplicates files fe fs t).similar_images,
        f.path ∉ groupPaths g)) ∧
    (fs = true → (fe = true → f.sha ≠ none) → (f.ph = none ∨ f.dh = none) →
      (f.path, "hash error") ∈ (find_duplicates files fe fs t).errors ∧
      (∀ g ∈ (find_duplicates files fe fs t).similar_images,
        f.path ∉ groupPaths g)) := by
  refine ⟨find_duplicates_total_images files fe fs t,
    find_duplicates_total_size files fe fs t, ?_, ?_⟩
  · intro hfe hsha
    subst hfe
    have herr : (hashOne true fs f sz).errored = true := by
      rw [hashOne_sha_fail hsha]
    refine ⟨by
      rw [find_duplicates_errors]
      exact List.mem_append_right _ (mem_hashErrors_of hf hst herr), ?_, ?_⟩
    · intro g hg hpath
      rw [groupPaths] at hpath
      obtain ⟨i, hi, hip⟩ := List.mem_map.mp hpath
      obtain ⟨s, hsp⟩ := exact_member_mem_shaPairs hg hi
      obtain ⟨f', sz', hf', hst', hsha'⟩ := mem_shaPairsOf hsp
      have hpath' : i.path = f'.path := (hashOne_shaEntry_spec hsha').2.2
      have hff : f' = f :=
        List.inj_on_of_nodup_map hN hf' hf (hpath'.symm.trans hip)
      rw [hff, hashOne_sha_fail hsha] at hsha'
      simp at hsha'
    · intro g hg hpath
      rw [groupPaths] at hpath
      obtain ⟨i, hi, hip⟩ := List.mem_map.mp hpath
      obtain ⟨f', sz', hf', hst', hph'⟩ :=
        mem_phashListOf (similar_member_mem_phashList hg hi)
      have hpath' : i.path = f'.path := (hashOne_phEntry_spec hph').2.1
      have hff : f' = f :=
        List.inj_on_of_nodup_map hN hf' hf (hpath'.symm.trans hip)
      rw [hff, hashOne_sha_fail hsha] at hph'
      simp at hph'
  · intro hfs hsha hph
    subst hfs
    obtain ⟨herr, hphnone⟩ := @hashOne_ph_fail fe f sz hph hsha
    refine ⟨by
      rw [find_duplicates_errors]
      exact List.mem_append_right _ (mem_hashErrors_of hf hst herr), ?_⟩
    intro g hg hpath
    rw [groupPaths] at hpath
    obtain ⟨i, hi, hip⟩ := List.mem_map.mp hpath
    obtain ⟨f', sz', hf', hst', hph'⟩ :=
      mem_phashListOf (similar_member_mem_phashList hg hi)
    have hpath' : i.path = f'.path := (hashOne_phEntry_spec hph').2.1
    have hff : f' = f :=
      List.inj_on_of_nodup_map hN hf' hf (hpath'.symm.trans hip)
    obtain ⟨_, hphnone'⟩ := @hashOne_ph_fail fe f sz' hph hsha
    rw [hff, hphnone'] at hph'
    simp at hph'

/-- C3 witness: a scan over one healthy file and one file whose exact
digest computation fails. -/
theorem c3_witness :
    (find_duplicates [cxA, shaFailFile] true true 10).total_images =
      (survivors [cxA, shaFailFile]).length ∧
    (find_duplicates [cxA, shaFailFile] true true 10).total_size =
      ((survivors [cxA, shaFailFile]).map Prod.snd).sum ∧
    (true = true → shaFailFile.sha = none →
      (shaFailFile.path, "hash error") ∈
        (find_duplicates [cxA, shaFailFile] true true 10).errors ∧
      (∀ g ∈ (find_duplicates [cxA, shaFailFile] true true 10).exact_duplicates,
        shaFailFile.path ∉ groupPaths g) ∧
      (∀ g ∈ (find_duplicates [cxA, shaFailFile] true true 10).similar_images,
        shaFailFile.path ∉ groupPaths g)) ∧
    (true = true → (true = true → shaFailFile.sha ≠ none) →
      (shaFailFile.ph = none ∨ shaFailFile.dh = none) →
      (shaFailFile.path, "hash error") ∈
        (find_duplicates [cxA, shaFailFile] true true 10).errors ∧
      (∀ g ∈ (find_duplicates [cxA, shaFailFile] true true 10).similar_images,
        shaFailFile.path ∉ groupPaths g)) :=
  c3_amended_error_handling [cxA, shaFailFile] true true 10 (by decide)
    shaFailFile (by decide) 3 (by decide)

/-- C3 counterexample: the claim says a file whose digest computation
fails is excluded from every exact and similar group.  Two byte-identical
files whose perceptual hashing fails are both recorded as errors, yet
they still form an exact group — their sha256 was grouped before the
perceptual computation raised. -/
theorem c3_counterexample :
    (find_duplicates [cxPhFailA, cxPhFailB] true true 10).errors =
      [("a", "hash error"), ("b", "hash error")] ∧
    (find_duplicates [cxPhFailA, cxPhFailB] true true 10).exact_duplicates.length = 1 ∧
    "a" ∈ groupPaths
      (((find_duplicates [cxPhFailA, cxPhFailB] true true 10).exact_duplicates).headD
        ⟨[], "", none⟩) := by decide

end ImageDedup

namespace ImageDedup

/-! ### C4: combined distance, join condition and similarity score -/

lemma combinedDist_le_iff (a b : ImageInfo) (t : Int) :
    combinedDist a b ≤ (t : ℚ) ↔ (sumDist a b : Int) ≤ 2 * t := by
  rw [combinedDist, div_le_iff₀ (by norm_num : (0 : ℚ) < 2)]
  constructor
  · intro h
    have h2 : ((sumDist a b : Int) : ℚ) ≤ ((2 * t : Int) : ℚ) := by
      push_cast
      linarith
    exact_mod_cast h2
  · intro h
    have h2 : ((sumDist a b : Int) : ℚ) ≤ ((2 * t : Int) : ℚ) := by
      exact_mod_cast h
    push_cast at h2
    linarith

lemma minQ?_map_half : ∀ (l : List Nat),
    minQ? (l.map fun x : Nat => (x : ℚ) / 2) =
      (minN? l).map fun x : Nat => (x : ℚ) / 2 := by
  intro l
  induction l with
  | nil => rfl
  | cons x xs ih =>
    rw [List.map_cons, minQ?, minN?, ih]
    rcases hx : minN? xs with _ | m
    · simp
    · rw [show Option.map (fun x : Nat => (x : ℚ) / 2) (some m) =
          some ((m : ℚ) / 2) from rfl,
        show Option.map (fun x : Nat => (x : ℚ) / 2)
            (some (min x ((some m).getD x))) =
          some (((min x ((some m).getD x) : ℕ) : ℚ) / 2) from rfl,
        Option.getD_some, Option.getD_some]
      rcases le_total x m with hxm | hmx
      · rw [min_eq_left hxm, min_eq_left (by gcongr)]
      · rw [min_eq_right hmx, min_eq_right (by gcongr)]

/-- C4 (amended): during similarity clustering, a candidate `j` joins
the anchor's group exactly when it is not yet matched and the combined
distance — the arithmetic mean of the structural and gradient Hamming
distances — is at most the threshold.  The minimum combined distance
among the included candidates is half the minimum distance sum, and the
emitted group's similarity score is `int(..)` of it: the *floor* of the
minimum combined distance (not the minimum itself, which can be a
half-integer — see the counterexample). -/
theorem c4_amended_clustering (a : ImageInfo) (i : Nat)
    (rest : List (Nat × ImageInfo)) (matched : List Nat) (t : Int)
    (hN : (((i, a) :: rest).map Prod.fst).Nodup) (hi : i ∉ matched) :
    ∀ ms m2 minS, innerScan a t rest matched = (ms, m2, minS) →
      (∀ e : Nat × ImageInfo, e ∈ ms ↔
        e ∈ rest ∧ e.1 ∉ matched ∧ combinedDist a e.2 ≤ (t : ℚ)) ∧
      minS = minN? (ms.map fun e => sumDist a e.2) ∧
      minQ? (ms.map fun e => combinedDist a e.2) =
        minS.map (fun m : Nat => (m : ℚ) / 2) ∧
      (∀ m, minS = some m → ms ≠ [] →
        (simCluster t ((i, a) :: rest) matched).2.head? =
          some ((i, a) :: ms, m / 2) ∧
        (m / 2 : ℕ) = ⌊(m : ℚ) / 2⌋₊) := by
  rw [List.map_cons, List.nodup_cons] at hN
  obtain ⟨hi_notin, hN'⟩ := hN
  intro ms m2 minS heq
  have hspec := innerScan_spec a t rest matched hN'
  rw [heq] at hspec
  have hms : ms = rest.filter fun e => decide (e.1 ∉ matched) &&
      decide ((sumDist a e.2 : Int) ≤ 2 * t) := congrArg (fun w => w.1) hspec
  have hminS : minS = minN? (ms.map fun e => sumDist a e.2) := by
    have h3 : minS = minN? ((rest.filter fun e => decide (e.1 ∉ matched) &&
        decide ((sumDist a e.2 : Int) ≤ 2 * t)).map fun e => sumDist a e.2) :=
      congrArg (fun w => w.2.2) hspec
    rw [h3, ← hms]
  refine ⟨?_, hminS, ?_, ?_⟩
  · intro e
    rw [hms, List.mem_filter]
    constructor
    · rintro ⟨h1, h2⟩
      rw [Bool.and_eq_true] at h2
      exact ⟨h1, of_decide_eq_true h2.1,
        (combinedDist_le_iff a e.2 t).mpr (of_decide_eq_true h2.2)⟩
    · rintro ⟨h1, h2, h3⟩
      refine ⟨h1, ?_⟩
      rw [Bool.and_eq_true]
      exact ⟨decide_eq_true h2,
        decide_eq_true ((combinedDist_le_iff a e.2 t).mp h3)⟩
  · have h4 := minQ?_map_half (ms.map fun e => sumDist a e.2)
    rw [List.map_map] at h4
    rw [show (ms.map fun e => combinedDist a e.2) =
      ms.map ((fun x : Nat => (x : ℚ) / 2) ∘ fun e => sumDist a e.2) from
      rfl]
    rw [h4, hminS]
  · intro m hm hne
    constructor
    · rw [simCluster, if_neg hi, heq]
      have hmsne : ¬ ms.isEmpty = true := by
        simp [List.isEmpty_iff, hne]
      simp only [hmsne, Bool.false_eq_true, if_false]
      rcases hsc : simCluster t rest (i :: m2) with ⟨m', gs⟩
      simp [hm]
    · rw [show ((2 : ℚ)) = ((2 : ℕ) : ℚ) by norm_num, Nat.floor_div_nat,
        Nat.floor_natCast]

/-- C4 witness: anchor `imgX` against the single candidate `imgY` at
distance sums 3 and 4 under threshold 10. -/
theorem c4_witness :
    (∀ e : Nat × ImageInfo, e ∈ [((1 : Nat), imgY)] ↔
      e ∈ [((1 : Nat), imgY)] ∧ e.1 ∉ ([] : List Nat) ∧
        combinedDist imgX e.2 ≤ ((10 : Int) : ℚ)) ∧
    (some 7 : Option Nat) =
      minN? ([((1 : Nat), imgY)].map fun e => sumDist imgX e.2) ∧
    minQ? ([((1 : Nat), imgY)].map fun e => combinedDist imgX e.2) =
      (some 7 : Option Nat).map (fun m : Nat => (m : ℚ) / 2) ∧
    (∀ m, (some 7 : Option Nat) = some m → [((1 : Nat), imgY)] ≠ [] →
      (simCluster 10 [((0 : Nat), imgX), (1, imgY)] []).2.head? =
        some ([(0, imgX), (1, imgY)], m / 2) ∧
      (m / 2 : ℕ) = ⌊(m : ℚ) / 2⌋₊) :=
  c4_amended_clustering imgX 0 [(1, imgY)] [] 10 (by decide) (by decide)
    [(1, imgY)] [1] (some 7) (by decide)

/-- C4 counterexample: the claim says the emitted similarity score
equals the minimum combined distance among the included pairs.  For two
images with Hamming distances 3 (structural) and 4 (gradient), the
minimum combined distance is 7/2, yet the emitted score is the truncated
3 — and 3 ≠ 7/2. -/
theorem c4_counterexample :
    (find_duplicates [fsX, fsY] true true 10).similar_images =
      [⟨[imgX, imgY], "similar", some 3⟩] ∧
    combinedDist imgX imgY = 7 / 2 ∧
    (3 : ℚ) ≠ 7 / 2 := by
  refine ⟨by decide, ?_, by norm_num⟩
  have h : sumDist imgX imgY = 7 := by decide
  rw [combinedDist, h]
  norm_num

end ImageDedup
